import Mathlib

/-!
# Verification of the voosh-frontend streaming chat core

Shallow embedding of the stream decoder (`src/api/chat.js` `postChatStream`
and the inline SSE parser in `src/components/ChatWindow.jsx` `handleSend`)
and of the transcript reducers (`src/hooks/useChat.js` `onEvent` /
`cancelStream`, and the per-event handling in `ChatWindow.jsx`).

Strings are modelled as `List Char`; JavaScript runtime values that flow
through the code (JSON payloads, `undefined` from missing properties) are
modelled by the inductive `JVal`.  `JSON.parse` is modelled by a total
recursive-descent parser over the JSON value grammar (integers only for
numerals, the common string escapes; this covers every payload the
specification and the code mention).
-/

namespace Voosh

/-- JavaScript runtime values reachable in this code: `undefined`, `null`,
booleans, (integer) numbers, strings, arrays and plain objects.
`JSON.parse` never produces `undef`; `undef` arises from reading a missing
property. Object fields are an association list; lookup takes the last
binding, matching `JSON.parse` duplicate-key semantics. -/
inductive JVal where
  | undef : JVal
  | null : JVal
  | bool : Bool → JVal
  | num : Int → JVal
  | str : String → JVal
  | arr : List JVal → JVal
  | obj : List (String × JVal) → JVal

namespace JVal

/-- JavaScript truthiness: `undefined`, `null`, `false`, `0` and `""` are
falsy; every array and object is truthy. -/
def truthy : JVal → Bool
  | undef => false
  | null => false
  | bool b => b
  | num n => n ≠ 0
  | str s => s ≠ ""
  | arr _ => true
  | obj _ => true

/-- `typeof v === "object"` — true for `null`, arrays and objects. -/
def typeofObject : JVal → Bool
  | null => true
  | arr _ => true
  | obj _ => true
  | _ => false

/-- `typeof v === "string"`. -/
def typeofString : JVal → Bool
  | str _ => true
  | _ => false

/-- Last-binding-wins object field lookup (missing key gives `undefined`). -/
def lookupField (fields : List (String × JVal)) (k : String) : JVal :=
  match fields.reverse.find? (fun p => p.1 = k) with
  | some p => p.2
  | none => undef

/-- Property read `v.k` as an `Option`: `none` models the `TypeError` thrown
when reading a property of `null`/`undefined`; a read on any other
non-object value yields `undefined` (primitive wrapper semantics); arrays
have no named data properties used by this code. -/
def getProp : JVal → String → Option JVal
  | undef, _ => none
  | null, _ => none
  | obj fields, k => some (lookupField fields k)
  | _, _ => some undef

/-- Optional-chaining read `v?.k`: `null`/`undefined` yield `undefined`
instead of throwing. -/
def getPropOpt : JVal → String → JVal
  | undef, _ => undef
  | null, _ => undef
  | obj fields, k => lookupField fields k
  | _, _ => undef

/-- JavaScript `||`: first operand when truthy, else the second. -/
def jsOr (a b : JVal) : JVal := if a.truthy then a else b

/-- `Array.isArray`. -/
def isArray : JVal → Bool
  | arr _ => true
  | _ => false

end JVal

/-- `String(v)` / template-literal coercion for the values this code can
coerce.  Arrays stringify as the comma-join of their elements with
`null`/`undefined` elements becoming empty, objects as
`"[object Object]"`. -/
def jsString : JVal → String
  | .undef => "undefined"
  | .null => "null"
  | .bool b => if b then "true" else "false"
  | .num n => toString n
  | .str s => s
  | .obj _ => "[object Object]"
  | .arr elems => String.intercalate "," (elems.map fun e =>
      match e with
      | .undef => ""
      | .null => ""
      | .bool b => if b then "true" else "false"
      | .num n => toString n
      | .str s => s
      | .obj _ => "[object Object]"
      | .arr _ => "")

/-! ## A model of `JSON.parse`

Total recursive-descent parser on `List Char`, fuelled by the input length
(every recursive call consumes at least one character, so the fuel is never
exhausted on real input).  Numerals are JSON integers (optional minus, no
leading zeros); strings support the escapes `\" \\ \/ \n \t \r \b \f`.
Trailing non-whitespace input is a parse error, as in `JSON.parse`. -/

/-- JSON whitespace. -/
def isJsonWs (c : Char) : Bool := c = ' ' ∨ c = '\t' ∨ c = '\n' ∨ c = '\r'

/-- Skip leading JSON whitespace. -/
def skipWs (l : List Char) : List Char := l.dropWhile isJsonWs

def isDigit (c : Char) : Bool := '0' ≤ c ∧ c ≤ '9'

/-- Digit value of an ASCII digit. -/
def digitVal (c : Char) : Nat := c.toNat - '0'.toNat

/-- Parse a run of digits into a natural number (accumulator form),
returning the value and the rest. -/
def parseDigits : List Char → Nat → Nat × List Char
  | c :: t, acc => if isDigit c then parseDigits t (acc * 10 + digitVal c) else (acc, c :: t)
  | [], acc => (acc, [])

/-- Parse a JSON string body after the opening quote. -/
def parseStringBody : List Char → Option (List Char × List Char)
  | [] => none
  | '"' :: t => some ([], t)
  | '\\' :: e :: t =>
    (match e with
      | '"' => some '"'
      | '\\' => some '\\'
      | '/' => some '/'
      | 'n' => some '\n'
      | 't' => some '\t'
      | 'r' => some '\r'
      | 'b' => some (Char.ofNat 8)
      | 'f' => some (Char.ofNat 12)
      | _ => none).bind fun c =>
      (parseStringBody t).map fun (s, rest) => (c :: s, rest)
  | c :: t =>
    if c.toNat < 32 then none
    else (parseStringBody t).map fun (s, rest) => (c :: s, rest)

mutual

/-- Parse one JSON value (leading whitespace already skipped). -/
def parseVal : Nat → List Char → Option (JVal × List Char)
  | 0, _ => none
  | _ + 1, [] => none
  | fuel + 1, c :: t =>
    match c with
    | 'n' => match c :: t with
      | 'n' :: 'u' :: 'l' :: 'l' :: r => some (.null, r)
      | _ => none
    | 't' => match c :: t with
      | 't' :: 'r' :: 'u' :: 'e' :: r => some (.bool true, r)
      | _ => none
    | 'f' => match c :: t with
      | 'f' :: 'a' :: 'l' :: 's' :: 'e' :: r => some (.bool false, r)
      | _ => none
    | '"' => (parseStringBody t).map fun (s, rest) => (.str (String.mk s), rest)
    | '-' =>
      (match t with
        | d :: t' =>
          if isDigit d then
            if d == '0' && (match t' with | d' :: _ => isDigit d' | [] => false) then none
            else
              let (n, rest) := parseDigits t' (digitVal d)
              some ((.num (-(n : Int))), rest)
          else none
        | [] => none)
    | '[' => parseElems fuel (skipWs t) true
    | '{' => parseMembers fuel (skipWs t) true
    | d =>
      if isDigit d then
        if d == '0' && (match t with | d' :: _ => isDigit d' | [] => false) then none
        else
          let (n, rest) := parseDigits t (digitVal d)
          some (.num (n : Int), rest)
      else none

/-- Parse array elements after `[` (whitespace skipped); `first` is true
before the first element. -/
def parseElems : Nat → List Char → Bool → Option (JVal × List Char)
  | 0, _, _ => none
  | _ + 1, [], _ => none
  | fuel + 1, c :: t, first =>
    if c = ']' ∧ first then some (.arr [], t)
    else
      (parseVal fuel (c :: t)).bind fun (v, rest) =>
        match skipWs rest with
        | ']' :: r => some (.arr [v], r)
        | ',' :: r =>
          (parseElems fuel (skipWs r) false).bind fun (tail, r') =>
            match tail with
            | .arr vs => some (.arr (v :: vs), r')
            | _ => none
        | _ => none

/-- Parse object members after `{` (whitespace skipped). -/
def parseMembers : Nat → List Char → Bool → Option (JVal × List Char)
  | 0, _, _ => none
  | _ + 1, [], _ => none
  | fuel + 1, c :: t, first =>
    if c = '}' ∧ first then some (.obj [], t)
    else
      match c :: t with
      | '"' :: t' =>
        (parseStringBody t').bind fun (k, rest) =>
          match skipWs rest with
          | ':' :: r =>
            (parseVal fuel (skipWs r)).bind fun (v, rest') =>
              match skipWs rest' with
              | '}' :: r' => some (.obj [(String.mk k, v)], r')
              | ',' :: r' =>
                (parseMembers fuel (skipWs r') false).bind fun (tail, r'') =>
                  match tail with
                  | .obj kvs => some (.obj ((String.mk k, v) :: kvs), r'')
                  | _ => none
              | _ => none
          | _ => none
      | _ => none

end

/-- Model of `JSON.parse` on a character list: `none` models a thrown
`SyntaxError`. -/
def jsonParse (l : List Char) : Option JVal :=
  match parseVal (l.length + 1) (skipWs l) with
  | some (v, rest) => if skipWs rest = [] then some v else none
  | none => none

namespace Decoder

/-!
## The SSE-style stream decoder

`postChatStream` (src/api/chat.js) keeps a carry-over `buffer`, appends each
decoded chunk, splits on `/\r?\n\r?\n/` (blank line), keeps the final —
possibly incomplete — segment as the new buffer, and parses each complete
block into an event.  `handleSend` (ChatWindow.jsx) contains the same
splitter with a slightly different block-line rule (bare lines count as
data).  Both are modelled below on `List Char`.
-/

/-- Prepend a character to the first split segment (or to the trailing
remainder when no segment has been completed yet). -/
def consFirst (c : Char) : List (List Char) × List Char → List (List Char) × List Char
  | ([], rest) => ([], c :: rest)
  | (b :: bs, rest) => ((c :: b) :: bs, rest)

/-- One pass of `buffer.split(/\r?\n\r?\n/)` followed by `blocks.pop()`:
returns the completed blocks and the retained trailing remainder.  The four
explicit arms are exactly the strings the (greedy, leftmost) JavaScript
regex `\r?\n\r?\n` can match. -/
def split1 : List Char → List (List Char) × List Char
  | [] => ([], [])
  | '\n' :: '\n' :: t => ([] :: (split1 t).1, (split1 t).2)
  | '\n' :: '\r' :: '\n' :: t => ([] :: (split1 t).1, (split1 t).2)
  | '\r' :: '\n' :: '\n' :: t => ([] :: (split1 t).1, (split1 t).2)
  | '\r' :: '\n' :: '\r' :: '\n' :: t => ([] :: (split1 t).1, (split1 t).2)
  | c :: t => consFirst c (split1 t)

/-- `block.split(/\r?\n/)` — split a block into its lines. -/
def splitLines : List Char → List (List Char)
  | [] => [[]]
  | '\r' :: '\n' :: t => [] :: splitLines t
  | '\n' :: t => [] :: splitLines t
  | c :: t =>
    match splitLines t with
    | [] => [[c]]
    | l :: ls => (c :: l) :: ls

/-- JavaScript `String.prototype.trim` whitespace (the characters that can
occur in this stream's lines). -/
def isJsWs (c : Char) : Bool := c == ' ' || c == '\t' || c == '\n' || c == '\r' || c == '\x0b' || c == '\x0c'

/-- `line.trim()`. -/
def trim (l : List Char) : List Char :=
  ((l.dropWhile isJsWs).reverse.dropWhile isJsWs).reverse

/-- The trimmed, non-empty lines of a block:
`block.split(/\r?\n/).map(l => l.trim()).filter(Boolean)`. -/
def blockLines (block : List Char) : List (List Char) :=
  ((splitLines block).map trim).filter (fun l => l ≠ [])

/-- `line.startsWith(p)`. -/
def startsWith (p : List Char) (l : List Char) : Bool := p.isPrefixOf l

/-- `line.replace(/^p\s*/, "")` when `line` starts with `p`: drop the prefix
and any whitespace after it. -/
def stripPrefixWs (p : List Char) (l : List Char) : List Char :=
  (l.drop p.length).dropWhile isJsWs

/-- A decoded stream event: the `{ event, data }` record handed to
`onEvent` (the name has already been defaulted to `"message"`). -/
structure SEvent where
  name : String
  payload : JVal

/-- One iteration of `postChatStream`'s per-line loop: an `event:` line
sets the event name (last wins), a `data:` line appends a payload line, and
a line with neither prefix is IGNORED. -/
def scanStepJs (acc : Option (List Char) × List (List Char)) (line : List Char) :
    Option (List Char) × List (List Char) :=
  if startsWith "event:".toList line then (some (stripPrefixWs "event:".toList line), acc.2)
  else if startsWith "data:".toList line then (acc.1, acc.2 ++ [stripPrefixWs "data:".toList line])
  else acc

/-- One iteration of `handleSend`'s per-line loop (ChatWindow.jsx): same as
`scanStepJs` except that a line with neither prefix is pushed onto the data
lines. -/
def scanStepCW (acc : Option (List Char) × List (List Char)) (line : List Char) :
    Option (List Char) × List (List Char) :=
  if startsWith "event:".toList line then (some (stripPrefixWs "event:".toList line), acc.2)
  else if startsWith "data:".toList line then (acc.1, acc.2 ++ [stripPrefixWs "data:".toList line])
  else (acc.1, acc.2 ++ [line])

/-- Fold of `postChatStream`'s per-line loop; returns `(evt, dataLines)`. -/
def scanLinesJs (lines : List (List Char)) : Option (List Char) × List (List Char) :=
  lines.foldl scanStepJs (none, [])

/-- Fold of `handleSend`'s per-line loop. -/
def scanLinesCW (lines : List (List Char)) : Option (List Char) × List (List Char) :=
  lines.foldl scanStepCW (none, [])

/-- Specification-side description of the ChatWindow payload lines: in line
order, each `data:` line with the prefix stripped, each bare line verbatim,
and no `event:` line. -/
def dataLinesSpecCW (lines : List (List Char)) : List (List Char) :=
  lines.filterMap (fun l =>
    if startsWith "event:".toList l then none
    else if startsWith "data:".toList l then some (stripPrefixWs "data:".toList l)
    else some l)

/-- Specification-side description of the `postChatStream` payload lines:
only the `data:` lines contribute. -/
def dataLinesSpecJs (lines : List (List Char)) : List (List Char) :=
  lines.filterMap (fun l =>
    if startsWith "event:".toList l then none
    else if startsWith "data:".toList l then some (stripPrefixWs "data:".toList l)
    else none)

/-- `dataLines.join("\n")`. -/
def joinData : List (List Char) → List Char
  | [] => []
  | l :: rest => rest.foldl (fun acc x => acc ++ '\n' :: x) l

/-- `evt || "message"` and the try/catch around `JSON.parse`. -/
def resolveEvent (evt : Option (List Char)) : String :=
  match evt with
  | some e => if e = [] then "message" else String.mk e
  | none => "message"

/-- `JSON.parse(raw)` with the raw string kept on failure. -/
def parsePayload (raw : List Char) : JVal :=
  match jsonParse raw with
  | some v => v
  | none => .str (String.mk raw)

/-- Full processing of one complete block by `postChatStream`. -/
def processBlockJs (block : List Char) : SEvent :=
  let s := scanLinesJs (blockLines block)
  { name := resolveEvent s.1, payload := parsePayload (joinData s.2) }

/-- Full processing of one complete block by `handleSend` (ChatWindow). -/
def processBlockCW (block : List Char) : SEvent :=
  let s := scanLinesCW (blockLines block)
  { name := resolveEvent s.1, payload := parsePayload (joinData s.2) }

/-- The decoder state of one `postChatStream` call: the carry-over buffer,
the events handed to `onEvent` so far (in order), and `doneData`. -/
structure JsRun where
  buffer : List Char
  events : List SEvent
  doneData : JVal

/-- The initial decoder state (`buffer = ""`, `doneData = null`). -/
def initRun : JsRun := { buffer := [], events := [], doneData := .null }

/-- One iteration of the read loop of `postChatStream`: append the chunk to
the buffer, split off the complete blocks (keeping the trailing remainder),
emit one event per block, and update `doneData` on each `done` event. -/
def feedChunk (st : JsRun) (chunk : List Char) : JsRun :=
  let sp := split1 (st.buffer ++ chunk)
  let evs := sp.1.map processBlockJs
  { buffer := sp.2
    events := st.events ++ evs
    doneData := evs.foldl (fun d e => if e.name = "done" then e.payload else d) st.doneData }

/-- End-of-input handling of `postChatStream`: if the remaining buffer is
non-blank, process it once more as a single block. -/
def flushRun (st : JsRun) : JsRun :=
  if trim st.buffer ≠ [] then
    let e := processBlockJs st.buffer
    { st with events := st.events ++ [e]
              doneData := if e.name = "done" then e.payload else st.doneData }
  else st

/-- The whole of `postChatStream`'s stream handling, applied to a list of
text chunks: fold the read loop over the chunks, then flush. -/
def runJs (chunks : List (List Char)) : JsRun :=
  flushRun (chunks.foldl feedChunk initRun)

/-- The payload of the last emitted event named `"done"` (JavaScript `null`
when there is none) — the value `postChatStream` resolves to. -/
def lastDonePayload (evs : List SEvent) : JVal :=
  evs.foldl (fun d e => if e.name = "done" then e.payload else d) .null

/-- No `"\r"`, no two adjacent `"\n"` (no blank line inside the block). -/
def noDoubleNl : List Char → Bool
  | '\n' :: '\n' :: _ => false
  | _ :: t => noDoubleNl t
  | [] => true

/-- A well-formed event-block text: non-empty, uses `"\n"` line endings
(no `"\r"`), contains no blank line, and does not end in a newline (every
well-formed `event:`/`data:` block of the wire format satisfies this). -/
def wfBlockText (bt : List Char) : Bool :=
  bt ≠ [] && '\r' ∉ bt && noDoubleNl bt && bt.getLast? ≠ some '\n'

/-- The wire form of a sequence of event blocks: each block text followed by
the blank-line delimiter. -/
def encodeStream (bts : List (List Char)) : List Char :=
  (bts.map (fun bt => bt ++ ['\n', '\n'])).flatten

/-- Statement of the chunk-composition property of `split1`: splitting
`x ++ y` is splitting `x` and then splitting the carry-over plus `y`. -/
def compGoal (x y : List Char) : Prop :=
  split1 (x ++ y) = ((split1 x).1 ++ (split1 ((split1 x).2 ++ y)).1,
    (split1 ((split1 x).2 ++ y)).2)

end Decoder

/-! ## The transcript reducers -/

/-- In-place functional update of the element at an index (as JavaScript
`copy[i] = ...` on a copied array); out-of-range indices change nothing. -/
def updateAt {α : Type} : List α → Nat → (α → α) → List α
  | [], _, _ => []
  | m :: t, 0, f => f m :: t
  | m :: t, n + 1, f => m :: updateAt t n f

namespace UseChat

/-- A conversation turn as kept by the `useChat` hook.  `text` is a `JVal`
because the hook can store non-string values there (e.g. the raw payload
object when no assistant turn exists).  The `ts` timestamp is omitted: it
is `Date.now()` wall-clock noise that no claim mentions. -/
structure Msg where
  role : String
  text : JVal

/-- The `useChat` hook state touched by stream events. -/
structure State where
  sessionId : JVal
  messages : List Msg
  loading : Bool
  sources : JVal

/-- `copy.map(m => m.role).lastIndexOf(r)` as an `Option` (JavaScript
returns `-1` for "none"). -/
def lastIndexOfRole (r : String) (ms : List Msg) : Option Nat :=
  match ms.reverse.findIdx? (fun m => m.role == r) with
  | some i => some (ms.length - 1 - i)
  | none => none

/-- The `onEvent` callback of `useChat.send` (src/hooks/useChat.js):
one fold step of the transcript reducer per decoded stream event. -/
def onEvent (event : String) (data : JVal) (st : State) : State :=
  if event = "session" ∧ (data.getPropOpt "sessionId").truthy then
    { st with sessionId := data.getPropOpt "sessionId" }
  else if event = "message" then
    { st with messages :=
        match lastIndexOfRole "assistant" st.messages with
        | none => st.messages ++ [{ role := "assistant", text := data.jsOr (.str "") }]
        | some i => updateAt st.messages i (fun m =>
            { m with text := .str (jsString (m.text.jsOr (.str "")) ++ jsString data) }) }
  else if event = "done" then
    let st1 := if (data.getPropOpt "sessionId").truthy then
        { st with sessionId := data.getPropOpt "sessionId" } else st
    let st2 := if (data.getPropOpt "answer").truthy then
        { st1 with messages :=
            match lastIndexOfRole "assistant" st1.messages with
            | none => st1.messages ++ [{ role := "assistant", text := data.getPropOpt "answer" }]
            | some i => updateAt st1.messages i (fun m =>
                { m with text := data.getPropOpt "answer" }) }
      else st1
    let st3 := if (data.getPropOpt "sources").isArray then
        { st2 with sources := data.getPropOpt "sources" } else st2
    { st3 with loading := false }
  else if event = "error" then
    let errText := if (data.getPropOpt "error").truthy then jsString (data.getPropOpt "error")
      else "Unknown stream error"
    { st with
      messages :=
        match lastIndexOfRole "assistant" st.messages with
        | some i => updateAt st.messages i (fun m =>
            { m with text := .str (jsString (m.text.jsOr (.str "")) ++ "\n\n[Error: " ++ errText ++ "]") })
        | none => st.messages ++ [{ role := "assistant", text := .str ("[Error: " ++ errText ++ "]") }]
      loading := false }
  else st

/-- One in-flight streaming send: the hook state, whether `abortRef.current`
holds a controller, and whether that controller's signal is aborted. -/
structure Session where
  state : State
  hasAbort : Bool
  aborted : Bool

/-- `cancelStream` (src/hooks/useChat.js): aborts the in-flight request if
one exists, clears `abortRef`, and clears the loading flag.  It never
touches `messages`. -/
def cancelStream (s : Session) : Session :=
  if s.hasAbort then
    { state := { s.state with loading := false }, hasAbort := false, aborted := true }
  else s

/-- Delivery of one decoded stream event to the hook.  Modelled from the
`fetch`/`AbortController` contract (platform behaviour, not repository
code): once the request's signal is aborted the response body stops
delivering chunks, so `onEvent` is not invoked again. -/
def deliver (s : Session) (ev : String × JVal) : Session :=
  if s.aborted then s else { s with state := onEvent ev.1 ev.2 s.state }

/-- A whole tail of stream events, delivered in order. -/
def deliverAll (s : Session) (evs : List (String × JVal)) : Session :=
  evs.foldl deliver s

end UseChat

namespace ChatWindow

/-- A rendered conversation turn of `ChatWindow` (`ts` omitted as above;
`text` is coerced to a string at store time, which is observationally
equivalent for every value this code stores). -/
structure Msg where
  role : String
  text : String

/-- The `ChatWindow` state touched while a stream is processed. -/
structure State where
  messages : List Msg
  assistantBuffer : String
  isStreaming : Bool

/-- `[...m].reverse().findIndex(x => x.role === "assistant" || x.role ===
"system")`, converted back to a forward position `m.length - 1 - idx`
(`none` for `-1`). -/
def lastAsstSysIdx (ms : List Msg) : Option Nat :=
  match ms.reverse.findIdx? (fun m => m.role == "assistant" || m.role == "system") with
  | some i => some (ms.length - 1 - i)
  | none => none

/-- `replaceLastAssistantText` (ChatWindow.jsx): overwrite the text of the
last assistant-or-system turn, or append a fresh assistant turn when there
is none. -/
def replaceLastAssistantText (newText : String) (ms : List Msg) : List Msg :=
  match lastAsstSysIdx ms with
  | none => ms ++ [{ role := "assistant", text := newText }]
  | some pos => updateAt ms pos (fun m => { m with text := newText })

/-- The per-event handling inside `handleSend`'s read loop.  `none` models
the `TypeError` thrown when a `message`/`done` payload is JSON `null`
(`typeof null === "object"` but `null.delta` throws), which the outer
try/catch turns into a stream error. -/
def applyEvent (effEvent : String) (parsed : JVal) (st : State) : Option State :=
  if effEvent = "session" then some st
  else if effEvent = "message" then
    (if parsed.typeofObject then
        (parsed.getProp "delta").map fun d => d.jsOr ((parsed.getPropOpt "data").jsOr (.str ""))
      else some parsed).map fun delta =>
      let buf := st.assistantBuffer ++ jsString delta
      { st with assistantBuffer := buf, messages := replaceLastAssistantText buf st.messages }
  else if effEvent = "done" then
    (if parsed.typeofObject then
        (parsed.getProp "answer").map fun a => a.jsOr ((parsed.getPropOpt "text").jsOr (.str st.assistantBuffer))
      else some parsed).map fun fin =>
      let buf := jsString fin
      { st with assistantBuffer := buf, messages := replaceLastAssistantText buf st.messages }
  else if effEvent = "error" then
    some { st with messages := st.messages ++
      [{ role := "system", text := "⚠️ " ++ jsString ((parsed.getPropOpt "error").jsOr parsed) }] }
  else some st

end ChatWindow

end Voosh

/-! # Theorems -/

namespace Voosh

namespace Decoder

theorem split1_cons_other (c : Char) (h1 : c ≠ '\n') (h2 : c ≠ '\r') (l : List Char) :
    split1 (c :: l) = consFirst c (split1 l) := by
  cases l with
  | nil => simp [split1, consFirst]
  | cons d t => simp [split1, h1, h2]

theorem split1_nl (d : Char) (h1 : d ≠ '\n') (h2 : d ≠ '\r') (l : List Char) :
    split1 ('\n' :: d :: l) = consFirst '\n' (split1 (d :: l)) := by
  cases l with
  | nil => simp [split1, h1, h2]
  | cons e t => simp [split1, h1, h2]

theorem split1_nl_cr (d : Char) (h1 : d ≠ '\n') (l : List Char) :
    split1 ('\n' :: '\r' :: d :: l) = consFirst '\n' (split1 ('\r' :: d :: l)) := by
  cases l with
  | nil => simp [split1, h1]
  | cons e t => simp [split1, h1]

theorem split1_cr (d : Char) (h1 : d ≠ '\n') (l : List Char) :
    split1 ('\r' :: d :: l) = consFirst '\r' (split1 (d :: l)) := by
  cases l with
  | nil => simp [split1, h1]
  | cons e t => simp [split1, h1]

theorem split1_cr_nl (d : Char) (h1 : d ≠ '\n') (h2 : d ≠ '\r') (l : List Char) :
    split1 ('\r' :: '\n' :: d :: l) = consFirst '\r' (split1 ('\n' :: d :: l)) := by
  cases l with
  | nil => simp [split1, split1_nl, h1, h2]
  | cons e t => simp [split1, h1, h2, split1_nl]

theorem split1_cr_nl_cr (d : Char) (h1 : d ≠ '\n') (l : List Char) :
    split1 ('\r' :: '\n' :: '\r' :: d :: l) = consFirst '\r' (split1 ('\n' :: '\r' :: d :: l)) := by
  cases l with
  | nil => simp [split1, split1_nl_cr, h1]
  | cons e t => simp [split1, h1, split1_nl_cr]

/-- Catch-all unfolding of `split1`: when the head of the list does not
start a delimiter match, it is consed onto the first segment. -/
theorem split1_catchall (c : Char) (t : List Char)
    (h1 : ∀ t1, c = '\n' → t = '\n' :: t1 → False)
    (h2 : ∀ t1, c = '\n' → t = '\r' :: '\n' :: t1 → False)
    (h3 : ∀ t1, c = '\r' → t = '\n' :: '\n' :: t1 → False)
    (h4 : ∀ t1, c = '\r' → t = '\n' :: '\r' :: '\n' :: t1 → False) :
    split1 (c :: t) = consFirst c (split1 t) := by
  by_cases hc : c = '\n'
  · subst hc
    cases t with
    | nil => rfl
    | cons d r =>
      have hd : d ≠ '\n' := fun h => h1 r rfl (by rw [h])
      by_cases hdr : d = '\r'
      · subst hdr
        cases r with
        | nil => rfl
        | cons e r' =>
          have he : e ≠ '\n' := fun h => h2 r' rfl (by rw [h])
          exact split1_nl_cr e he r'
      · exact split1_nl d hd hdr r
  · by_cases hcr : c = '\r'
    · subst hcr
      cases t with
      | nil => rfl
      | cons d r =>
        by_cases hd : d = '\n'
        · subst hd
          cases r with
          | nil => rfl
          | cons e r' =>
            by_cases he : e = '\n'
            · exact absurd (h3 r' rfl (by rw [he])) (fun h => h)
            · by_cases her : e = '\r'
              · subst her
                cases r' with
                | nil => rfl
                | cons f r'' =>
                  have hf : f ≠ '\n' := fun h => h4 r'' rfl (by rw [h])
                  exact split1_cr_nl_cr f hf r''
              · exact split1_cr_nl e he her r'
        · exact split1_cr d hd r
    · exact split1_cons_other c hc hcr t

/-- A carry-over remainder contains no complete block: if splitting found no
delimiter, the remainder is the whole input. -/
theorem split1_empty_blocks (l : List Char) (h : (split1 l).1 = []) : (split1 l).2 = l := by
  induction l using split1.induct with
  | case1 => simp [split1]
  | case2 t ih => simp [split1] at h
  | case3 t ih => simp [split1] at h
  | case4 t ih => simp [split1] at h
  | case5 t ih => simp [split1] at h
  | case6 c t h1 h2 h3 h4 ih =>
    rw [split1_catchall c t h1 h2 h3 h4] at h ⊢
    rcases hsp : split1 t with ⟨bs, rest⟩
    rw [hsp] at h
    cases bs with
    | nil =>
      have hrt : rest = t := by
        have := ih (by rw [hsp]); rw [hsp] at this; exact this
      simp [consFirst, hrt]
    | cons b bs' => simp [consFirst] at h

theorem comp_triv (x y : List Char) (hx : split1 x = ([], x)) : compGoal x y := by
  unfold compGoal
  rw [hx]
  simp

theorem comp_step (c : Char) (l y : List Char)
    (hxy : split1 (c :: (l ++ y)) = consFirst c (split1 (l ++ y)))
    (hx : split1 (c :: l) = consFirst c (split1 l))
    (ih : compGoal l y) : compGoal (c :: l) y := by
  unfold compGoal at ih ⊢
  rcases hsp : split1 l with ⟨bs, rest⟩
  cases bs with
  | nil =>
    have hrt : rest = l := by
      have := split1_empty_blocks l (by rw [hsp]); rw [hsp] at this; exact this
    subst hrt
    have hcl : split1 (c :: rest) = ([], c :: rest) := by rw [hx, hsp]; rfl
    rw [hcl]
    simp
  | cons b bs' =>
    have hcl : split1 (c :: l) = ((c :: b) :: bs', rest) := by rw [hx, hsp]; rfl
    rw [show (c :: l) ++ y = c :: (l ++ y) from rfl, hxy, ih, hsp, hcl]
    simp [consFirst]

/-- Chunk composition for the block splitter: feeding `x ++ y` is the same
as feeding `x` and then feeding the carry-over plus `y`. -/
theorem split1_append (x y : List Char) : compGoal x y := by
  induction x using split1.induct with
  | case1 => unfold compGoal; simp [split1]
  | case2 t ih =>
    unfold compGoal at ih ⊢
    rw [show ('\n' :: '\n' :: t) ++ y = '\n' :: '\n' :: (t ++ y) from rfl]
    simp only [split1]
    rw [ih]
    simp
  | case3 t ih =>
    unfold compGoal at ih ⊢
    rw [show ('\n' :: '\r' :: '\n' :: t) ++ y = '\n' :: '\r' :: '\n' :: (t ++ y) from rfl]
    simp only [split1]
    rw [ih]
    simp
  | case4 t ih =>
    unfold compGoal at ih ⊢
    rw [show ('\r' :: '\n' :: '\n' :: t) ++ y = '\r' :: '\n' :: '\n' :: (t ++ y) from rfl]
    simp only [split1]
    rw [ih]
    simp
  | case5 t ih =>
    unfold compGoal at ih ⊢
    rw [show ('\r' :: '\n' :: '\r' :: '\n' :: t) ++ y = '\r' :: '\n' :: '\r' :: '\n' :: (t ++ y) from rfl]
    simp only [split1]
    rw [ih]
    simp
  | case6 c t h1 h2 h3 h4 ih =>
    by_cases hc : c = '\n'
    · subst hc
      cases t with
      | nil => exact comp_triv ['\n'] y rfl
      | cons d r =>
        have hd : d ≠ '\n' := fun h => h1 r rfl (by rw [h])
        by_cases hdr : d = '\r'
        · subst hdr
          cases r with
          | nil => exact comp_triv ['\n', '\r'] y rfl
          | cons e r' =>
            have he : e ≠ '\n' := fun h => h2 r' rfl (by rw [h])
            exact comp_step '\n' ('\r' :: e :: r') y (split1_nl_cr e he (r' ++ y))
              (split1_nl_cr e he r') ih
        · exact comp_step '\n' (d :: r) y (split1_nl d hd hdr (r ++ y))
            (split1_nl d hd hdr r) ih
    · by_cases hcr : c = '\r'
      · subst hcr
        cases t with
        | nil => exact comp_triv ['\r'] y rfl
        | cons d r =>
          by_cases hd : d = '\n'
          · subst hd
            cases r with
            | nil => exact comp_triv ['\r', '\n'] y rfl
            | cons e r' =>
              by_cases he : e = '\n'
              · exact absurd (h3 r' rfl (by rw [he])) (fun h => h)
              · by_cases her : e = '\r'
                · subst her
                  cases r' with
                  | nil => exact comp_triv ['\r', '\n', '\r'] y rfl
                  | cons f r'' =>
                    have hf : f ≠ '\n' := fun h => h4 r'' rfl (by rw [h])
                    exact comp_step '\r' ('\n' :: '\r' :: f :: r'') y
                      (split1_cr_nl_cr f hf (r'' ++ y)) (split1_cr_nl_cr f hf r'') ih
                · exact comp_step '\r' ('\n' :: e :: r') y
                    (split1_cr_nl e he her (r' ++ y)) (split1_cr_nl e he her r') ih
          · exact comp_step '\r' (d :: r) y (split1_cr d hd (r ++ y)) (split1_cr d hd r) ih
      · exact comp_step c t y (split1_cons_other c hc hcr (t ++ y))
          (split1_cons_other c hc hcr t) ih

/-- The carry-over never contains a complete block. -/
theorem split1_rest (l : List Char) : split1 ((split1 l).2) = ([], (split1 l).2) := by
  have h := split1_append l []
  unfold compGoal at h
  rw [List.append_nil, List.append_nil] at h
  have h1 : (split1 l).1 = (split1 l).1 ++ (split1 ((split1 l).2)).1 := congrArg Prod.fst h
  have h2 : (split1 ((split1 l).2)).1 = [] := by
    have := List.self_eq_append_right.mp h1
    exact this
  have h3 := split1_empty_blocks ((split1 l).2) h2
  rcases hs : split1 ((split1 l).2) with ⟨bs, r⟩
  rw [hs] at h2 h3
  simp only [Prod.mk.injEq]
  exact ⟨h2, h3⟩

/-- Two successive read-loop iterations behave like one on the concatenated
chunk. -/
theorem feedChunk_comp (st : JsRun) (c1 c2 : List Char) :
    feedChunk (feedChunk st c1) c2 = feedChunk st (c1 ++ c2) := by
  unfold feedChunk
  have h := split1_append (st.buffer ++ c1) c2
  unfold compGoal at h
  rw [List.append_assoc] at h
  simp only [h, List.map_append, List.foldl_append, List.append_assoc]

/-- A read-loop iteration on the empty chunk is a no-op (the carry-over
contains no complete block). -/
theorem feedChunk_nil (st : JsRun) (h : split1 st.buffer = ([], st.buffer)) :
    feedChunk st [] = st := by
  unfold feedChunk
  rw [List.append_nil, h]
  simp

theorem feedChunk_bufOk (st : JsRun) (c : List Char) :
    split1 (feedChunk st c).buffer = ([], (feedChunk st c).buffer) := by
  unfold feedChunk
  exact split1_rest (st.buffer ++ c)

theorem foldl_feedChunk (cs : List (List Char)) :
    ∀ st : JsRun, split1 st.buffer = ([], st.buffer) →
      cs.foldl feedChunk st = feedChunk st cs.flatten := by
  induction cs with
  | nil =>
    intro st h
    simp [feedChunk_nil st h]
  | cons c cs' ih =>
    intro st h
    simp only [List.foldl_cons, List.flatten_cons]
    rw [ih (feedChunk st c) (feedChunk_bufOk st c), feedChunk_comp]

/-- The decoder is invariant under re-chunking: feeding the chunks one by
one ends in exactly the state reached by feeding their concatenation as a
single chunk. -/
theorem runJs_rechunk (cs : List (List Char)) : runJs cs = runJs [cs.flatten] := by
  unfold runJs
  rw [foldl_feedChunk cs initRun rfl]
  simp only [List.foldl_cons, List.foldl_nil]

theorem noDoubleNl_tail (c : Char) (t : List Char) (h : noDoubleNl (c :: t) = true) :
    noDoubleNl t = true := by
  cases t with
  | nil => rfl
  | cons d t' =>
    by_cases hc : c = '\n'
    · subst hc
      by_cases hd : d = '\n'
      · subst hd; simp [noDoubleNl] at h
      · simpa [noDoubleNl, hd] using h
    · simpa [noDoubleNl, hc] using h

theorem split1_block_aux (bt : List Char) : ∀ rest : List Char,
    '\r' ∉ bt → noDoubleNl bt = true → bt.getLast? ≠ some '\n' →
    split1 (bt ++ '\n' :: '\n' :: rest) = (bt :: (split1 rest).1, (split1 rest).2) := by
  induction bt with
  | nil =>
    intro rest _ _ _
    simp [split1]
  | cons c t ih =>
    intro rest h1 h2 h3
    have hcr : c ≠ '\r' := fun h => h1 (h ▸ List.mem_cons_self c t)
    have h1' : '\r' ∉ t := fun h => h1 (List.mem_cons_of_mem c h)
    have h2' : noDoubleNl t = true := noDoubleNl_tail c t h2
    by_cases hcn : c = '\n'
    · subst hcn
      cases t with
      | nil => simp at h3
      | cons d t' =>
        have hd : d ≠ '\n' := by
          intro h
          subst h
          simp [noDoubleNl] at h2
        have hdr : d ≠ '\r' := fun h => h1 (h ▸ List.mem_cons_of_mem '\n' (List.mem_cons_self d t'))
        have h3' : (d :: t').getLast? ≠ some '\n' := by
          rwa [List.getLast?_cons_cons] at h3
        show split1 ('\n' :: d :: (t' ++ '\n' :: '\n' :: rest)) = _
        rw [split1_nl d hd hdr (t' ++ '\n' :: '\n' :: rest)]
        show consFirst '\n' (split1 ((d :: t') ++ '\n' :: '\n' :: rest)) = _
        rw [ih rest h1' h2' h3']
        simp [consFirst]
    · have h3' : t.getLast? ≠ some '\n' := by
        cases t with
        | nil => simp
        | cons d t' => rwa [List.getLast?_cons_cons] at h3
      show split1 (c :: (t ++ '\n' :: '\n' :: rest)) = _
      rw [split1_cons_other c hcn hcr (t ++ '\n' :: '\n' :: rest)]
      show consFirst c (split1 (t ++ '\n' :: '\n' :: rest)) = _
      rw [ih rest h1' h2' h3']
      simp [consFirst]

/-- Splitting a well-formed encoded stream recovers exactly the blocks,
with an empty carry-over. -/
theorem split1_encode (bts : List (List Char)) (h : ∀ bt ∈ bts, wfBlockText bt = true) :
    split1 (encodeStream bts) = (bts, []) := by
  induction bts with
  | nil => simp [encodeStream, split1]
  | cons bt rest ih =>
    have hbt := h bt (List.mem_cons_self bt rest)
    simp only [wfBlockText, Bool.and_eq_true, decide_eq_true_eq, ne_eq] at hbt
    obtain ⟨⟨⟨hne, hmem⟩, hnn⟩, hlast⟩ := hbt
    unfold encodeStream
    simp only [List.map_cons, List.flatten_cons]
    rw [List.append_assoc, show ['\n', '\n'] ++ (List.map (fun bt => bt ++ ['\n', '\n']) rest).flatten
      = '\n' :: '\n' :: (List.map (fun bt => bt ++ ['\n', '\n']) rest).flatten from rfl]
    rw [split1_block_aux bt _ (by simpa using hmem) hnn (by simpa using hlast)]
    rw [show (List.map (fun bt => bt ++ ['\n', '\n']) rest).flatten = encodeStream rest from rfl]
    rw [ih (fun b hb => h b (List.mem_cons_of_mem bt hb))]

theorem runJs_single_encode (bts : List (List Char)) (h : ∀ bt ∈ bts, wfBlockText bt = true) :
    (runJs [encodeStream bts]).events = bts.map processBlockJs := by
  unfold runJs
  simp only [List.foldl_cons, List.foldl_nil]
  unfold feedChunk flushRun initRun
  simp only [List.nil_append, split1_encode bts h]
  simp [trim]

theorem feedChunk_doneData (st : JsRun) (c : List Char)
    (h : st.doneData = lastDonePayload st.events) :
    (feedChunk st c).doneData = lastDonePayload (feedChunk st c).events := by
  unfold feedChunk lastDonePayload at *
  simp only [List.foldl_append]
  rw [← h]

theorem flushRun_doneData (st : JsRun)
    (h : st.doneData = lastDonePayload st.events) :
    (flushRun st).doneData = lastDonePayload (flushRun st).events := by
  unfold flushRun
  split
  · simp only [lastDonePayload, List.foldl_append, List.foldl_cons, List.foldl_nil]
    unfold lastDonePayload at h
    rw [← h]
  · exact h

theorem foldl_feedChunk_doneData (cs : List (List Char)) :
    ∀ st : JsRun, st.doneData = lastDonePayload st.events →
      (cs.foldl feedChunk st).doneData = lastDonePayload (cs.foldl feedChunk st).events := by
  induction cs with
  | nil => intro st h; exact h
  | cons c cs' ih =>
    intro st h
    simp only [List.foldl_cons]
    exact ih (feedChunk st c) (feedChunk_doneData st c h)

theorem scanLinesJs_data (lines : List (List Char)) : ∀ acc,
    (lines.foldl scanStepJs acc).2 = acc.2 ++ dataLinesSpecJs lines := by
  induction lines with
  | nil => intro acc; simp [dataLinesSpecJs]
  | cons l ls ih =>
    intro acc
    simp only [List.foldl_cons, dataLinesSpecJs, List.filterMap_cons]
    by_cases h1 : startsWith "event:".toList l
    · simp only [scanStepJs, h1, if_pos]
      rw [ih]
      simp [dataLinesSpecJs, h1]
    · by_cases h2 : startsWith "data:".toList l
      · simp only [scanStepJs, h1, h2, if_neg, if_pos, Bool.false_eq_true, not_false_iff]
        rw [ih]
        simp [dataLinesSpecJs, h1, h2]
      · simp only [scanStepJs, h1, h2, if_neg, Bool.false_eq_true, not_false_iff]
        rw [ih]
        simp [dataLinesSpecJs, h1, h2]

theorem scanLinesCW_data (lines : List (List Char)) : ∀ acc,
    (lines.foldl scanStepCW acc).2 = acc.2 ++ dataLinesSpecCW lines := by
  induction lines with
  | nil => intro acc; simp [dataLinesSpecCW]
  | cons l ls ih =>
    intro acc
    simp only [List.foldl_cons, dataLinesSpecCW, List.filterMap_cons]
    by_cases h1 : startsWith "event:".toList l
    · simp only [scanStepCW, h1, if_pos]
      rw [ih]
      simp [dataLinesSpecCW, h1]
    · by_cases h2 : startsWith "data:".toList l
      · simp only [scanStepCW, h1, h2, if_neg, if_pos, Bool.false_eq_true, not_false_iff]
        rw [ih]
        simp [dataLinesSpecCW, h1, h2]
      · simp only [scanStepCW, h1, h2, if_neg, Bool.false_eq_true, not_false_iff]
        rw [ih]
        simp [dataLinesSpecCW, h1, h2]

end Decoder

end Voosh

namespace Voosh

open Decoder

/-- C1: decoding any chunking of a stream whose concatenation is N
well-formed event blocks yields exactly the same events — the same names
and payloads in the same order — as decoding the whole concatenation as a
single chunk, and there are exactly N of them (one per block). -/
theorem C1_chunk_boundary_invariance (cs bts : List (List Char))
    (hjoin : cs.flatten = encodeStream bts)
    (hwf : ∀ bt ∈ bts, wfBlockText bt = true) :
    (runJs cs).events = (runJs [cs.flatten]).events ∧
    (runJs cs).events = bts.map processBlockJs ∧
    (runJs cs).events.length = bts.length := by
  have hinv := runJs_rechunk cs
  refine ⟨by rw [hinv], ?_, ?_⟩
  · rw [hinv, hjoin, runJs_single_encode bts hwf]
  · rw [hinv, hjoin, runJs_single_encode bts hwf, List.length_map]

/-- Witness for C1: a two-block stream cut mid-line and mid-delimiter. -/
theorem C1_witness :
    (["event: message\ndata: \x7b\"del".toList, "ta\":\"Hi \"\x7d\n\nevent: d".toList,
        "one\ndata: \x7b\"answer\":\"Hi there\"\x7d\n".toList, "\n".toList].flatten
      = encodeStream ["event: message\ndata: \x7b\"delta\":\"Hi \"\x7d".toList,
          "event: done\ndata: \x7b\"answer\":\"Hi there\"\x7d".toList]) ∧
    (runJs ["event: message\ndata: \x7b\"del".toList, "ta\":\"Hi \"\x7d\n\nevent: d".toList,
        "one\ndata: \x7b\"answer\":\"Hi there\"\x7d\n".toList, "\n".toList]).events.length = 2 := by
  refine ⟨rfl, ?_⟩
  have h := C1_chunk_boundary_invariance
    ["event: message\ndata: \x7b\"del".toList, "ta\":\"Hi \"\x7d\n\nevent: d".toList,
        "one\ndata: \x7b\"answer\":\"Hi there\"\x7d\n".toList, "\n".toList]
    ["event: message\ndata: \x7b\"delta\":\"Hi \"\x7d".toList,
        "event: done\ndata: \x7b\"answer\":\"Hi there\"\x7d".toList]
    rfl (by decide)
  exact h.2.2

/-- C10: `postChatStream` resolves to the parsed payload of the last event
whose effective name is `"done"` (the trailing-buffer block included), and
to `null` when no `done` event was emitted. -/
theorem C10_resolves_to_last_done :
    (∀ chunks : List (List Char),
        (runJs chunks).doneData = lastDonePayload (runJs chunks).events) ∧
    (runJs ["event: message\ndata: hi\n\n".toList]).doneData = JVal.null ∧
    (runJs ["event: done\ndata: 7".toList]).doneData = JVal.num 7 := by
  refine ⟨fun chunks => ?_, rfl, rfl⟩
  unfold runJs
  exact flushRun_doneData _ (foldl_feedChunk_doneData chunks initRun rfl)

theorem updateAt_getElem?_ne {α : Type} (ms : List α) (f : α → α) :
    ∀ (i j : Nat), j ≠ i → (updateAt ms i f)[j]? = ms[j]? := by
  induction ms with
  | nil => intro i j _; simp [updateAt]
  | cons m t ih =>
    intro i j h
    cases i with
    | zero =>
      cases j with
      | zero => exact absurd rfl h
      | succ j' => simp [updateAt]
    | succ i' =>
      cases j with
      | zero => simp [updateAt]
      | succ j' => simp [updateAt, ih i' j' (fun he => h (by rw [he]))]

theorem replaceLast_frame (tx : String) (ms : List ChatWindow.Msg) (i : Nat)
    (hi : i < ms.length) (hne : ChatWindow.lastAsstSysIdx ms ≠ some i) :
    (ChatWindow.replaceLastAssistantText tx ms)[i]? = ms[i]? := by
  unfold ChatWindow.replaceLastAssistantText
  cases h : ChatWindow.lastAsstSysIdx ms with
  | none => exact List.getElem?_append_left hi
  | some pos =>
    exact updateAt_getElem?_ne ms _ pos i (fun he => hne (by rw [he, h]))

/-- C7 (amended): applying a stream event changes at most the turn selected
by the last assistant-OR-SYSTEM scan (or appends new turns); every earlier
turn — in particular every user turn — is left unchanged.  The original
claim is too strong: a trailing system turn can be overwritten by a later
`message` event (see the counterexample), and nothing closes the pending
turn after `done`. -/
theorem C7_only_scanned_turn_mutable (ev : String) (p : JVal)
    (st st' : ChatWindow.State) (happ : ChatWindow.applyEvent ev p st = some st')
    (i : Nat) (hi : i < st.messages.length)
    (hne : ChatWindow.lastAsstSysIdx st.messages ≠ some i) :
    st'.messages[i]? = st.messages[i]? := by
  unfold ChatWindow.applyEvent at happ
  by_cases h1 : ev = "session"
  · rw [if_pos h1] at happ
    injection happ with h
    rw [← h]
  · rw [if_neg h1] at happ
    by_cases h2 : ev = "message"
    · rw [if_pos h2] at happ
      rcases ho : (if p.typeofObject then
          (p.getProp "delta").map (fun d => d.jsOr ((p.getPropOpt "data").jsOr (.str "")))
        else some p) with _ | d
      · rw [ho] at happ
        simp at happ
      · rw [ho] at happ
        simp only [Option.map_some'] at happ
        injection happ with h
        rw [← h]
        exact replaceLast_frame _ st.messages i hi hne
    · rw [if_neg h2] at happ
      by_cases h3 : ev = "done"
      · rw [if_pos h3] at happ
        rcases ho : (if p.typeofObject then
            (p.getProp "answer").map (fun a => a.jsOr ((p.getPropOpt "text").jsOr (.str st.assistantBuffer)))
          else some p) with _ | d
        · rw [ho] at happ
          simp at happ
        · rw [ho] at happ
          simp only [Option.map_some'] at happ
          injection happ with h
          rw [← h]
          exact replaceLast_frame _ st.messages i hi hne
      · rw [if_neg h3] at happ
        by_cases h4 : ev = "error"
        · rw [if_pos h4] at happ
          injection happ with h
          rw [← h]
          exact List.getElem?_append_left hi
        · rw [if_neg h4] at happ
          injection happ with h
          rw [← h]

/-- Witness for C7: a `message` delta mutates only the last assistant turn;
the user turn at index 0 is untouched. -/
theorem C7_witness :
    ChatWindow.applyEvent "message" (.obj [("delta", .str "x")])
        ⟨[⟨"user", "q"⟩, ⟨"assistant", "a"⟩], "a", true⟩
      = some ⟨[⟨"user", "q"⟩, ⟨"assistant", "ax"⟩], "ax", true⟩ ∧
    (0 : Nat) < 2 ∧
    ChatWindow.lastAsstSysIdx [⟨"user", "q"⟩, ⟨"assistant", "a"⟩] ≠ some 0 ∧
    ([(⟨"user", "q"⟩ : ChatWindow.Msg), ⟨"assistant", "ax"⟩])[0]?
      = ([(⟨"user", "q"⟩ : ChatWindow.Msg), ⟨"assistant", "a"⟩])[0]? := by
  refine ⟨rfl, by decide, by decide, ?_⟩
  exact C7_only_scanned_turn_mutable "message" (.obj [("delta", .str "x")])
    ⟨[⟨"user", "q"⟩, ⟨"assistant", "a"⟩], "a", true⟩
    ⟨[⟨"user", "q"⟩, ⟨"assistant", "ax"⟩], "ax", true⟩ rfl 0 (by decide) (by decide)

/-- Counterexample for C7 as stated: with transcript `[user, system]`, a
`message` event OVERWRITES the system turn's text (the scan accepts
`role === "system"`), so system turns are not immutable. -/
theorem C7_counterexample_system_turn_mutated :
    ChatWindow.applyEvent "message" (.obj [("delta", .str "x")])
        ⟨[⟨"user", "q"⟩, ⟨"system", "err"⟩], "", true⟩
      = some ⟨[⟨"user", "q"⟩, ⟨"system", "x"⟩], "x", true⟩ ∧
    ("err" : String) ≠ "x" := ⟨rfl, by decide⟩

/-- C2 as an evaluation: the live ChatWindow handler concatenates the
deltas (`"foo"` then `"bar"` gives `"foobar"`), but the `useChat` hook's
`onEvent` never reads `delta` — it appends `String(payload)`, i.e.
`"[object Object]"`, for every object payload. -/
theorem C2_delta_append_eval :
    ((ChatWindow.applyEvent "message" (.obj [("delta", .str "foo")])
        ⟨[⟨"assistant", ""⟩], "", true⟩).bind
      (ChatWindow.applyEvent "message" (.obj [("delta", .str "bar")])))
      = some ⟨[⟨"assistant", "foobar"⟩], "foobar", true⟩ ∧
    (UseChat.onEvent "message" (.obj [("delta", .str "bar")])
        (UseChat.onEvent "message" (.obj [("delta", .str "foo")])
          ⟨.null, [⟨"assistant", .str ""⟩], true, .arr []⟩)).messages
      = [⟨"assistant", .str "[object Object][object Object]"⟩] := ⟨rfl, rfl⟩

/-- C5 as an evaluation: `ChatWindow` has no generation or session-identity
guard, so after the effect for a newly selected session has hydrated
`messages`, a straggling `message` event from the previous session's
still-open stream is applied to the NEW session's turn list (here it
overwrites the hydrated assistant turn `"old a"`). -/
theorem C5_stale_stream_mutates_new_session :
    ChatWindow.applyEvent "message" (.obj [("delta", .str " there")])
        ⟨[⟨"user", "old q"⟩, ⟨"assistant", "old a"⟩], "Hi", true⟩
      = some ⟨[⟨"user", "old q"⟩, ⟨"assistant", "Hi there"⟩], "Hi there", true⟩ ∧
    ("old a" : String) ≠ "Hi there" := ⟨rfl, by decide⟩

theorem deliverAll_aborted (evs : List (String × JVal)) :
    ∀ s : UseChat.Session, s.aborted = true → UseChat.deliverAll s evs = s := by
  induction evs with
  | nil => intro s _; rfl
  | cons e es ih =>
    intro s h
    unfold UseChat.deliverAll at *
    simp only [List.foldl_cons]
    rw [show UseChat.deliver s e = s from by unfold UseChat.deliver; rw [h]; simp]
    exact ih s h

/-- C4: with a stream in flight (`abortRef.current` set), `cancelStream`
clears the loading flag, leaves every transcript turn — including the
partial assistant text — untouched, and (by the abort contract) no further
stream event mutates the state afterwards. -/
theorem C4_cancel_nondestructive (s : UseChat.Session) (h : s.hasAbort = true) :
    (UseChat.cancelStream s).state.messages = s.state.messages ∧
    (UseChat.cancelStream s).state.loading = false ∧
    ∀ evs, UseChat.deliverAll (UseChat.cancelStream s) evs = UseChat.cancelStream s := by
  have hc : UseChat.cancelStream s
      = { state := { s.state with loading := false }, hasAbort := false, aborted := true } := by
    unfold UseChat.cancelStream
    rw [h]
    simp
  refine ⟨by rw [hc], by rw [hc], fun evs => deliverAll_aborted evs _ (by rw [hc])⟩

/-- Witness for C4: cancelling a concrete in-flight stream with partial
text `"par"` keeps the partial text and ignores a late `message` chunk. -/
theorem C4_witness :
    ((⟨⟨.null, [⟨"assistant", .str "par"⟩], true, .arr []⟩, true, false⟩ : UseChat.Session).hasAbort
        = true) ∧
    (UseChat.cancelStream ⟨⟨.null, [⟨"assistant", .str "par"⟩], true, .arr []⟩, true, false⟩).state.messages
      = [⟨"assistant", .str "par"⟩] ∧
    (UseChat.cancelStream ⟨⟨.null, [⟨"assistant", .str "par"⟩], true, .arr []⟩, true, false⟩).state.loading
      = false ∧
    UseChat.deliverAll
        (UseChat.cancelStream ⟨⟨.null, [⟨"assistant", .str "par"⟩], true, .arr []⟩, true, false⟩)
        [("message", .obj [("delta", .str "X")])]
      = UseChat.cancelStream ⟨⟨.null, [⟨"assistant", .str "par"⟩], true, .arr []⟩, true, false⟩ := by
  have h := C4_cancel_nondestructive
    ⟨⟨.null, [⟨"assistant", .str "par"⟩], true, .arr []⟩, true, false⟩ rfl
  exact ⟨rfl, h.1, h.2.1, h.2.2 [("message", .obj [("delta", .str "X")])]⟩

/-- C3 (amended): a `done` event whose payload carries a NON-EMPTY `answer`
string replaces the pending assistant turn's text with exactly that answer
(discarding accumulated partial text) and clears the loading flag.  The
non-emptiness hypothesis is forced: the code guards the replacement with
JavaScript truthiness, so an empty `answer` is ignored (see the
counterexample). -/
theorem C3_done_replaces (st : UseChat.State) (data : JVal) (a : String)
    (ha : data.getPropOpt "answer" = .str a) (hne : a ≠ "") :
    (UseChat.onEvent "done" data st).loading = false ∧
    (UseChat.onEvent "done" data st).messages =
      (match UseChat.lastIndexOfRole "assistant" st.messages with
       | some i => updateAt st.messages i (fun m => { m with text := JVal.str a })
       | none => st.messages ++ [{ role := "assistant", text := JVal.str a }]) := by
  have hta : (data.getPropOpt "answer").truthy = true := by
    rw [ha]
    simp [JVal.truthy, hne]
  unfold UseChat.onEvent
  rw [if_neg (by simp), if_neg (by simp), if_pos rfl]
  have hta2 : (JVal.str a).truthy = true := ha ▸ hta
  by_cases hsid : (data.getPropOpt "sessionId").truthy = true <;>
    by_cases hsrc : (data.getPropOpt "sources").isArray = true <;>
      rcases hidx : UseChat.lastIndexOfRole "assistant" st.messages with _ | i <;>
        simp [hsid, hsrc, ha, hta2, hidx]

/-- Witness for C3: a `done` with answer `"fin"` discards the partial text
`"par"` and clears loading. -/
theorem C3_witness :
    ((JVal.obj [("answer", .str "fin")]).getPropOpt "answer" = .str "fin") ∧
    ("fin" : String) ≠ "" ∧
    (UseChat.onEvent "done" (.obj [("answer", .str "fin")])
        ⟨.null, [⟨"assistant", .str "par"⟩], true, .arr []⟩).loading = false ∧
    (UseChat.onEvent "done" (.obj [("answer", .str "fin")])
        ⟨.null, [⟨"assistant", .str "par"⟩], true, .arr []⟩).messages
      = [⟨"assistant", .str "fin"⟩] := by
  have h := C3_done_replaces ⟨.null, [⟨"assistant", .str "par"⟩], true, .arr []⟩
    (.obj [("answer", .str "fin")]) "fin" rfl (by decide)
  exact ⟨rfl, by decide, h.1, h.2.trans rfl⟩

/-- Counterexample for C3 as stated: a `done` event whose payload CONTAINS
an `answer` field that is the empty string does NOT replace the partial
text — the truthiness guard skips the replacement. -/
theorem C3_counterexample_empty_answer :
    (UseChat.onEvent "done" (.obj [("answer", .str "")])
        ⟨.null, [⟨"assistant", .str "partial"⟩], true, .arr []⟩).messages
      = [⟨"assistant", .str "partial"⟩] ∧
    ("partial" : String) ≠ "" := ⟨rfl, by decide⟩

/-- C6 (amended): for a complete block, the ChatWindow decoder's payload
lines are, in order, every `data:` line stripped of its prefix AND every
trimmed non-empty line with neither prefix; the `postChatStream` decoder in
api/chat.js instead IGNORES lines with neither prefix, so only `data:`
lines contribute.  In both, the payload is the newline-join of those
lines. -/
theorem C6_payload_lines (block : List Char) :
    (scanLinesCW (blockLines block)).2 = dataLinesSpecCW (blockLines block) ∧
    (scanLinesJs (blockLines block)).2 = dataLinesSpecJs (blockLines block) ∧
    (processBlockCW block).payload = parsePayload (joinData (dataLinesSpecCW (blockLines block))) ∧
    (processBlockJs block).payload = parsePayload (joinData (dataLinesSpecJs (blockLines block))) := by
  have h1 : (scanLinesCW (blockLines block)).2 = dataLinesSpecCW (blockLines block) := by
    unfold scanLinesCW
    simpa using scanLinesCW_data (blockLines block) (none, [])
  have h2 : (scanLinesJs (blockLines block)).2 = dataLinesSpecJs (blockLines block) := by
    unfold scanLinesJs
    simpa using scanLinesJs_data (blockLines block) (none, [])
  refine ⟨h1, h2, ?_, ?_⟩
  · show parsePayload (joinData (scanLinesCW (blockLines block)).2) = _
    exact congrArg (fun ls => parsePayload (joinData ls)) h1
  · show parsePayload (joinData (scanLinesJs (blockLines block)).2) = _
    exact congrArg (fun ls => parsePayload (joinData ls)) h2

/-- Counterexample for C6 as stated: the api/chat.js decoder drops the bare
line `hello`, leaving an empty payload rather than `"hello"`. -/
theorem C6_counterexample_bare_line_ignored :
    (processBlockJs "hello".toList).payload = .str "" ∧
    ¬ (processBlockJs "hello".toList).payload = .str "hello" := by
  refine ⟨rfl, ?_⟩
  intro h
  rw [show (processBlockJs "hello".toList).payload = .str "" from rfl] at h
  injection h with h'
  exact absurd h' (by decide)

/-- C8 (amended): a `session` event with a truthy `sessionId` payload sets
the active session identifier to that value UNCONDITIONALLY — in
particular it adopts it when the identifier was unset, but it also
overwrites an already-set identifier (see the counterexample); a payload
without a truthy `sessionId` leaves the state untouched. -/
theorem C8_session_adoption (st : UseChat.State) (data : JVal) :
    (UseChat.onEvent "session" data st).sessionId =
      (if (data.getPropOpt "sessionId").truthy then data.getPropOpt "sessionId"
       else st.sessionId) ∧
    (UseChat.onEvent "session" data st).messages = st.messages := by
  unfold UseChat.onEvent
  by_cases h : (data.getPropOpt "sessionId").truthy = true
  · rw [if_pos ⟨rfl, h⟩]
    simp [h]
  · rw [if_neg (fun hc => h hc.2), if_neg (by simp), if_neg (by simp), if_neg (by simp)]
    simp [h]

/-- Counterexample for C8 as stated: a `session` event overwrites an
ALREADY-SET identifier (`"A"` becomes `"B"`) instead of leaving it
unchanged. -/
theorem C8_counterexample_overwrites_set_id :
    (UseChat.onEvent "session" (.obj [("sessionId", .str "B")])
        ⟨.str "A", [], false, .arr []⟩).sessionId = .str "B" ∧
    ¬ (JVal.str "B") = .str "A" := by
  refine ⟨rfl, ?_⟩
  intro h
  injection h with h'
  exact absurd h' (by decide)

/-- C9: an event's payload is the JSON parse of the joined data lines when
that text parses (the JSON values `null` and `0` included), and the raw
joined text unchanged otherwise; a parse failure never halts the stream —
the malformed block still yields its (raw-string) event and the following
block is decoded normally. -/
theorem C9_payload_json_or_raw :
    (∀ raw : List Char, parsePayload raw =
        (match jsonParse raw with | some v => v | none => .str (String.mk raw))) ∧
    jsonParse "null".toList = some JVal.null ∧
    jsonParse "0".toList = some (JVal.num 0) ∧
    parsePayload "null".toList = JVal.null ∧
    parsePayload "0".toList = JVal.num 0 ∧
    parsePayload "hello".toList = JVal.str "hello" ∧
    (runJs ["data: \x7bbad\n\nevent: done\ndata: 1\n\n".toList]).events
      = [⟨"message", .str "\x7bbad"⟩, ⟨"done", .num 1⟩] :=
  ⟨fun _ => rfl, rfl, rfl, rfl, rfl, rfl, rfl⟩

end Voosh
